import Mathlib

/-!
Verification of the x-dl video extractor: a shallow embedding of the
URL/format classifier, access-wall detector, tweet-URL parser, candidate
ranker/selector, extraction prelude and the ffmpeg no-progress monitor,
together with proofs settling the specification claims C1-C10.

Strings are modelled as `List Char`; JavaScript string operations
(`includes`, `split`, `toLowerCase`, regex prefix tests) are given
executable models restricted to ASCII case mapping, which covers every
string literal appearing in the program.
-/

namespace XDL

/-- A JavaScript string, modelled as a list of characters. -/
abbrev Str := List Char

/-- ASCII lowercasing of a string, the model of `String.prototype.toLowerCase`
for the ASCII inputs the program manipulates. -/
def toLowerStr (s : Str) : Str := s.map Char.toLower

/-- Model of `hay.includes(needle)`: `needle` occurs as a contiguous
substring of `hay`. -/
def containsSub (hay needle : Str) : Bool :=
  if needle.isPrefixOf hay then true
  else
    match hay with
    | [] => false
    | _ :: t => containsSub t needle

/-- Model of JavaScript `s.split(sep)` for a single-character separator:
splits on every occurrence, keeping empty pieces. -/
def splitOnChar (sep : Char) : Str → List Str
  | [] => [[]]
  | c :: rest =>
    match splitOnChar sep rest with
    | [] => [[]]
    | s :: ss => if c = sep then [] :: s :: ss else (c :: s) :: ss

/-- The decimal value of a digit string (the model of `parseInt(s, 10)` for
the all-digit capture groups the program feeds it). -/
def digitsToNat (s : Str) : Nat :=
  s.foldl (fun acc c => acc * 10 + (c.toNat - '0'.toNat)) 0

/-- `/^\d+$/.test s`: `s` is non-empty and consists of decimal digits. -/
def allDigits (s : Str) : Bool := !s.isEmpty && s.all Char.isDigit

/-- A word character of the JavaScript `\w` class: `[A-Za-z0-9_]`. -/
def isWordChar (c : Char) : Bool :=
  (('a' ≤ c && c ≤ 'z') || ('A' ≤ c && c ≤ 'Z') || c.isDigit || c = '_')

/-- Strip a literal from the front of the input, the building block for the
anchored regex prefix tests. -/
def stripLit (lit s : Str) : Option Str :=
  if lit.isPrefixOf s then some (s.drop lit.length) else none

/-- Strip an optional literal: consume it when present, otherwise leave the
input unchanged.  (In each pattern below the character after the optional
literal cannot begin the literal itself, so committing is equivalent to the
regex's backtracking.) -/
def stripOpt (lit s : Str) : Str :=
  match stripLit lit s with
  | some r => r
  | none => s

/-- Strip a non-empty maximal run of characters satisfying `p` (the model of
a greedy `p+`; in every use the following pattern character cannot satisfy
`p`, so maximal munch is equivalent to the regex's backtracking). -/
def stripMany1 (p : Char → Bool) (s : Str) : Option Str :=
  if (s.takeWhile p).isEmpty then none else some (s.dropWhile p)

end XDL

namespace XDL

/-! ### utils.ts -/

/-- `getVideoFormat` from `src/utils.ts`: classifies a media URL by
case-insensitive substring search over the whole URL, in priority order
`.mp4`, `.m3u8`, `.gif`-or-`tweet_video`, else `"unknown"`. -/
def getVideoFormat (url : Str) : Str :=
  let lowerUrl := toLowerStr url
  if containsSub lowerUrl (".mp4".data) then "mp4".data
  else if containsSub lowerUrl (".m3u8".data) then "m3u8".data
  else if containsSub lowerUrl (".gif".data) ||
          containsSub lowerUrl ("twimg.com/tweet_video".data) then "gif".data
  else "unknown".data

/-- The login/signup indicator phrases of `hasLoginWall`. -/
def loginIndicators : List Str :=
  ["log in".data, "sign up".data, "join the conversation".data,
   "sign in to view".data]

/-- Condition (a) of `hasLoginWall`: the lowercased HTML contains at least
one indicator phrase. -/
def hasLoginIndicator (html : Str) : Bool :=
  let lowerHtml := toLowerStr html
  loginIndicators.any (fun ind => containsSub lowerHtml (toLowerStr ind))

/-- Condition (b) of `hasLoginWall`: the HTML contains the exact
call-to-action string `"Sign in"` or `"Log in"` (case-sensitive). -/
def hasAuthRequired (html : Str) : Bool :=
  containsSub html ("Sign in".data) || containsSub html ("Log in".data)

/-- `hasLoginWall` from `src/utils.ts`: the conjunction of the indicator
scan and the call-to-action scan. -/
def hasLoginWall (html : Str) : Bool :=
  hasLoginIndicator html && hasAuthRequired html

/-- Matches `^https?:\/\/` on the (already lowercased) input, returning the
remainder. -/
def stripHttpScheme (s : Str) : Option Str := do
  let s1 ← stripLit "http".data s
  let s2 := stripOpt "s".data s1
  stripLit "://".data s2

/-- `/\w+\/status\/\d+/` — author segment, literal `status` segment, and at
least one digit of the post id (the patterns are unanchored at the end). -/
def stripAuthorStatusId (s : Str) : Option Str := do
  let s1 ← stripMany1 isWordChar s
  let s2 ← stripLit "/status/".data s1
  stripMany1 Char.isDigit s2

/-- `^https?:\/\/(www\.)?twitter\.com\/[\w]+\/status\/[\d]+/i` as a prefix
test on the lowercased URL. -/
def matchTwitterCom (l : Str) : Bool :=
  (do
    let s1 ← stripHttpScheme l
    let s2 := stripOpt "www.".data s1
    let s3 ← stripLit "twitter.com/".data s2
    stripAuthorStatusId s3).isSome

/-- `^https?:\/\/(www\.)?x\.com\/[\w]+\/status\/[\d]+/i` as a prefix test on
the lowercased URL. -/
def matchXCom (l : Str) : Bool :=
  (do
    let s1 ← stripHttpScheme l
    let s2 := stripOpt "www.".data s1
    let s3 ← stripLit "x.com/".data s2
    stripAuthorStatusId s3).isSome

/-- `^https?:\/\/(localhost|127\.0\.0\.1)(:\d+)?\/[\w]+\/status\/[\d]+/i` as
a prefix test on the lowercased URL. -/
def matchLocalhost (l : Str) : Bool :=
  (do
    let s1 ← stripHttpScheme l
    let s2 ←
      match stripLit "localhost".data s1 with
      | some r => some r
      | none => stripLit "127.0.0.1".data s1
    let s3 ←
      match s2 with
      | ':' :: rest => stripMany1 Char.isDigit rest
      | _ => some s2
    let s4 ← stripLit "/".data s3
    stripAuthorStatusId s4).isSome

/-- `isValidTwitterUrl` from `src/utils.ts`: the URL matches one of the
three case-insensitive post-URL patterns. -/
def isValidTwitterUrl (url : Str) : Bool :=
  let l := toLowerStr url
  matchTwitterCom l || matchXCom l || matchLocalhost l

end XDL

namespace XDL

/-! ### The `new URL` model and `parseTweetUrl` -/

/-- Split a string on every path separator (`/` or `\`; WHATWG treats a
backslash as a path separator for http/https URLs). -/
def splitOnSeps : Str → List Str
  | [] => [[]]
  | c :: rest =>
    match splitOnSeps rest with
    | [] => [[]]
    | s :: ss => if c = '/' || c = '\\' then [] :: s :: ss else (c :: s) :: ss

/-- WHATWG dot-segment resolution over the path segments: `..` pops the
previous segment, `.` is dropped, and a trailing dot segment leaves a
trailing empty segment (a trailing slash). -/
def dotNorm (acc : List Str) : List Str → List Str
  | [] => acc
  | [seg] =>
    if seg = "..".data then acc.dropLast ++ [[]]
    else if seg = ".".data then acc ++ [[]]
    else acc ++ [seg]
  | seg :: rest =>
    if seg = "..".data then dotNorm acc.dropLast rest
    else if seg = ".".data then dotNorm acc rest
    else dotNorm (acc ++ [seg]) rest

/-- The fields of `new URL(url)` that `parseTweetUrl` reads. -/
structure ParsedUrl where
  origin : Str
  pathname : Str
deriving DecidableEq, Repr

/-- Model of the WHATWG `new URL` parse, restricted to what holds of the
http/https URLs accepted by `isValidTwitterUrl`: scheme and host are ASCII
and are lowercased, the authority carries no user-info or IPv6 literal, a
port is decimal and is dropped from the origin when it is the scheme
default, the pathname is the raw path with separators normalised to `/`
and dot segments resolved, and query (`?...`) and fragment (`#...`) are
stripped from the pathname.  (Percent-encoding of exotic path characters
is outside the model's scope; no claim depends on it.) -/
def parseUrl (url : Str) : ParsedUrl :=
  let scheme := url.takeWhile (· ≠ ':')
  let afterScheme :=
    match stripLit "://".data (url.drop scheme.length) with
    | some r => r
    | none => []
  let authority :=
    afterScheme.takeWhile (fun c => !(c = '/' || c = '\\' || c = '?' || c = '#'))
  let afterAuth := afterScheme.drop authority.length
  let host := authority.takeWhile (· ≠ ':')
  let lscheme := toLowerStr scheme
  let portPart :=
    match authority.drop host.length with
    | ':' :: p =>
      if p.isEmpty then []
      else
        let n := digitsToNat p
        if (lscheme = "http".data && n = 80) ||
           (lscheme = "https".data && n = 443) then []
        else ':' :: (Nat.repr n).data
    | _ => []
  let rawPath := afterAuth.takeWhile (fun c => !(c = '?' || c = '#'))
  let pathname :=
    match rawPath with
    | [] => "/".data
    | _ :: tail => '/' :: List.intercalate "/".data (dotNorm [] (splitOnSeps tail))
  { origin := lscheme ++ "://".data ++ toLowerStr host ++ portPart
    pathname := pathname }

/-- `TweetInfo` from `src/types.ts`. -/
structure TweetInfo where
  id : Str
  author : Str
  url : Str
deriving DecidableEq, Repr

/-- Index of the first occurrence of `x`, if any. -/
def firstIdx? (x : Str) : List Str → Option Nat
  | [] => none
  | s :: rest => if s = x then some 0 else (firstIdx? x rest).map (· + 1)

/-- Model of `Array.prototype.indexOf`: the first index of `x`, `-1` when
absent. -/
def jsIndexOf (l : List Str) (x : Str) : Int :=
  match firstIdx? x l with
  | some n => (n : Int)
  | none => -1

/-- Model of `l[i]` for a possibly negative index: `none` stands for
JavaScript `undefined`. -/
def jsGet? (l : List Str) (i : Int) : Option Str :=
  if i < 0 then none else l[i.toNat]?

/-- The body of `parseTweetUrl` after the validity guard, operating on the
parsed URL: locate the first `status` path segment, read the neighbouring
author and id segments, and reject a missing or empty author or a
non-numeric id (`!author || !id || !/^\d+$/.test(id)`). -/
def tweetFromParts (u : ParsedUrl) : Option TweetInfo :=
  let pathParts := splitOnChar '/' u.pathname
  let statusIndex : Int := jsIndexOf pathParts ("status".data)
  let authorIndex : Int := statusIndex - 1
  if authorIndex < 0 ∨ statusIndex < 0 then none
  else
    match jsGet? pathParts authorIndex, jsGet? pathParts (statusIndex + 1) with
    | some author, some id =>
      if author.isEmpty || id.isEmpty || !allDigits id then none
      else some ⟨id, author, u.origin ++ u.pathname⟩
    | _, _ => none

/-- `parseTweetUrl` from `src/utils.ts`. -/
def parseTweetUrl (url : Str) : Option TweetInfo :=
  if !isValidTwitterUrl url then none
  else tweetFromParts (parseUrl url)

end XDL

namespace XDL

/-! ### src/extractor.ts — candidate parsing, ranking and selection -/

/-- First match of the resolution marker regex `/\/(\d+)x(\d+)\//`: a `/`,
a non-empty digit run, `x`, a non-empty digit run, `/`.  The digit runs are
maximal (the characters that follow them in the pattern are not digits, so
greedy matching is deterministic), and positions are tried left to right as
the regex engine does. -/
def findRes : Str → Option (Nat × Nat)
  | [] => none
  | '/' :: rest =>
    let d1 := rest.takeWhile Char.isDigit
    if d1.isEmpty then findRes rest
    else
      match rest.drop d1.length with
      | 'x' :: rest2 =>
        let d2 := rest2.takeWhile Char.isDigit
        if d2.isEmpty then findRes rest
        else
          match rest2.drop d2.length with
          | '/' :: _ => some (digitsToNat d1, digitsToNat d2)
          | _ => findRes rest
      | _ => findRes rest
  | _ :: rest => findRes rest

/-- `extractBitrate` from `src/utils.ts`: the area of the first
path-embedded resolution marker. -/
def extractBitrate (url : Str) : Option Nat :=
  (findRes url).map (fun p => p.1 * p.2)

/-- `ExtractCandidate` from `src/extractor.ts`.  The `score` field is always
set by `toCandidate`, so it is total here; `(x.score || 0)` in the
comparators is therefore just `x.score`. -/
structure ExtractCandidate where
  url : Str
  format : Str
  width : Option Nat
  height : Option Nat
  score : Nat
  audioOnly : Bool
deriving DecidableEq, Repr

/-- `toCandidate` from `src/extractor.ts` (it never returns `null`; the
`filter(Boolean)` after it is vacuous). -/
def toCandidate (url : Str) : ExtractCandidate :=
  let format := getVideoFormat url
  let cleanUrl := url.takeWhile (· ≠ '#')  -- url.split('#')[0]
  let audioOnly :=
    containsSub cleanUrl ("/aud/".data) ||
    containsSub cleanUrl ("/mp4a/".data) ||
    containsSub cleanUrl ("mp4a".data)
  let res := findRes cleanUrl
  let base := match res with | some p => p.1 * p.2 | none => 0
  let score :=
    base +
    (if (format = "mp4".data ∨ format = "webm".data) ∧ audioOnly = false
      then 1000000000 else 0) +
    (if format = "m3u8".data ∧ audioOnly = false ∧
        containsSub cleanUrl ("variant_version".data) = true
      then 2000000000 else 0)
  { url := cleanUrl, format := format, width := res.map Prod.fst,
    height := res.map Prod.snd, score := score, audioOnly := audioOnly }

/-- `[...new Set(allUrls)]`: deduplication keeping first occurrences. -/
def dedupFirst (l : List Str) : List Str :=
  l.foldl (fun acc u => if u ∈ acc then acc else acc ++ [u]) []

/-- Insert into a list sorted by score descending, before the first element
of score at most the inserted one (the stable position for an element that
preceded the tail in the original order). -/
def insertByScore (c : ExtractCandidate) :
    List ExtractCandidate → List ExtractCandidate
  | [] => [c]
  | b :: t => if b.score ≤ c.score then c :: b :: t else b :: insertByScore c t

/-- Model of the stable `sort((a, b) => (b.score || 0) - (a.score || 0))`. -/
def sortByScoreDesc : List ExtractCandidate → List ExtractCandidate
  | [] => []
  | c :: t => insertByScore c (sortByScoreDesc t)

/-- The progressive-delivery boost of `pickBestProgressiveCandidate`:
`1` when the URL carries the `/pu/vid/` marker, else `0`. -/
def puBoost (c : ExtractCandidate) : Nat :=
  if containsSub c.url ("/pu/vid/".data) then 1 else 0

/-- Insert into a list sorted descending by the pair
(`puBoost`, score) ordered lexicographically. -/
def insertByBoost (c : ExtractCandidate) :
    List ExtractCandidate → List ExtractCandidate
  | [] => [c]
  | b :: t =>
    if puBoost b < puBoost c ∨ (puBoost b = puBoost c ∧ b.score ≤ c.score)
      then c :: b :: t
      else b :: insertByBoost c t

/-- Model of the stable sort by the `/pu/vid/`-first comparator. -/
def sortByBoostDesc : List ExtractCandidate → List ExtractCandidate
  | [] => []
  | c :: t => insertByBoost c (sortByBoostDesc t)

/-- The probing loop of `pickBestProgressiveCandidate`: over the (at most 6)
probed candidates, keep the one with the largest content length, skipping
unknown sizes (`!size`, which also skips a zero size) and sizes below the
100 KiB floor.  `probe` is the model of `getContentLength` (an HTTP HEAD;
`none` is an unknown/missing content length). -/
def pickLoop (probe : Str → Option Nat) :
    List ExtractCandidate → ExtractCandidate → Nat → ExtractCandidate
  | [], best, _ => best
  | c :: rest, best, bestSize =>
    match probe c.url with
    | none => pickLoop probe rest best bestSize
    | some size =>
      if size = 0 then pickLoop probe rest best bestSize
      else if size < 102400 then pickLoop probe rest best bestSize
      else if bestSize < size then pickLoop probe rest c size
      else pickLoop probe rest best bestSize

/-- `pickBestProgressiveCandidate` from `src/extractor.ts`: rank by score,
re-rank stably with the `/pu/vid/` boost, then probe the top 6 and keep the
largest content length above the floor (defaulting to the top-ranked
candidate).  Returns `none` exactly on an empty pool (the caller guards
with `progressiveVideos.length > 0`). -/
def pickBestProgressiveCandidate (probe : Str → Option Nat)
    (candidates : List ExtractCandidate) : Option ExtractCandidate :=
  match sortByBoostDesc (sortByScoreDesc candidates) with
  | [] => none
  | b :: rest => some (pickLoop probe ((b :: rest).take 6) b 0)

/-- `VideoUrl` from `src/types.ts`. -/
structure VideoUrl where
  url : Str
  format : Str
  bitrate : Option Nat
  width : Option Nat
  height : Option Nat
deriving DecidableEq, Repr

/-- The `parsed` list of `selectBestVideoUrl`: the deduplicated URLs mapped
through `toCandidate` (the `filter(Boolean)` is vacuous). -/
def parsedCandidates (allUrls : List Str) : List ExtractCandidate :=
  (dedupFirst allUrls).map toCandidate

/-- The `m3u8s` pool of `selectBestVideoUrl` before sorting. -/
def playlistPool (allUrls : List Str) : List ExtractCandidate :=
  (parsedCandidates allUrls).filter (fun c => decide (c.format = "m3u8".data))

/-- `bestM3U8` of `selectBestVideoUrl`: head of the score-sorted playlist
pool. -/
def bestPlaylist (allUrls : List Str) : Option ExtractCandidate :=
  (sortByScoreDesc (playlistPool allUrls)).head?

/-- The progressive-video filter of `selectBestVideoUrl` (lines 355-360):
drop audio-only candidates and `m4s`/`m4a`/`ts` formats, keep `mp4`/`webm`,
and otherwise keep everything that is not `m3u8`. -/
def progressiveFilter (c : ExtractCandidate) : Bool :=
  if c.audioOnly then false
  else if c.format = "m4s".data ∨ c.format = "m4a".data ∨ c.format = "ts".data
    then false
  else if c.format = "mp4".data ∨ c.format = "webm".data then true
  else if c.format = "m3u8".data then false
  else true

/-- The `progressiveVideos` pool of `selectBestVideoUrl`. -/
def progressivePool (allUrls : List Str) : List ExtractCandidate :=
  (parsedCandidates allUrls).filter progressiveFilter

/-- The `audioOnly` fallback pool of `selectBestVideoUrl` (line 392): the
mp4-format candidates.  It is consulted only when the progressive pool is
empty, at which point every mp4 candidate is audio-only. -/
def mp4Pool (allUrls : List Str) : List ExtractCandidate :=
  (parsedCandidates allUrls).filter (fun c => decide (c.format = "mp4".data))

/-- `selectBestVideoUrl` from `src/extractor.ts`, as a pure function of the
deduplicated union of the three channels' URLs and of the HEAD-probe
results (`probe` models `getContentLength`; the program calls it twice on
the chosen URL and a function parameter models both calls returning the
same header). -/
def selectBestVideoUrl (probe : Str → Option Nat) (allUrls : List Str) :
    Option VideoUrl :=
  match pickBestProgressiveCandidate probe (progressivePool allUrls) with
  | some best =>
    -- `if (size && size < 100 * 1024 && bestM3U8)`: substitute the playlist
    -- for a suspiciously small progressive file.
    match bestPlaylist allUrls, probe best.url with
    | some bm, some size =>
      if size ≠ 0 ∧ size < 102400 then
        some ⟨bm.url, "m3u8".data, none, none, none⟩
      else
        some ⟨best.url, best.format, extractBitrate best.url,
              best.width, best.height⟩
    | _, _ =>
      some ⟨best.url, best.format, extractBitrate best.url,
            best.width, best.height⟩
  | none =>
    match bestPlaylist allUrls with
    | some bm => some ⟨bm.url, "m3u8".data, none, none, none⟩
    | none =>
      -- the `audioOnly` fallback: the first mp4-format candidate (at this
      -- point necessarily an audio-only rendition)
      match (mp4Pool allUrls).head? with
      | some a => some ⟨a.url, a.format, none, none, none⟩
      | none => none

end XDL

namespace XDL

/-! ### The extraction prelude and the ffmpeg no-progress monitor -/

/-- `ErrorClassification` from `src/types.ts`. -/
inductive ErrorClassification where
  | LOGIN_WALL
  | PROTECTED_ACCOUNT
  | NO_VIDEO_FOUND
  | INVALID_URL
  | PARSE_ERROR
  | EXTRACTION_ERROR
  | UNKNOWN
deriving DecidableEq, Repr

/-- The two outcomes of the validation phase of `VideoExtractor.extract`
(lines 42-62): an early classified return, produced before the line
`await import('playwright')` that opens a browser, or entry into the
browser phase with the parsed tweet info. -/
inductive ExtractPhase where
  | earlyReturn (classification : ErrorClassification)
  | browserPhase (ti : TweetInfo)
deriving DecidableEq, Repr

/-- The validation prefix of `VideoExtractor.extract`: reject an invalid
URL, then a URL that fails to parse, and only otherwise proceed to the
browser phase. -/
def extractPrelude (url : Str) : ExtractPhase :=
  if !isValidTwitterUrl url then .earlyReturn .INVALID_URL
  else
    match parseTweetUrl url with
    | none => .earlyReturn .PARSE_ERROR
    | some ti => .browserPhase ti

/-- Whether a browser is ever launched for the given phase outcome: the
playwright import and launch sit strictly after both validation returns. -/
def browserOpened : ExtractPhase → Bool
  | .earlyReturn _ => false
  | .browserPhase _ => true

/-- Outcomes of the `downloadHlsWithFfmpeg` liveness guards for a run whose
ffmpeg subprocess never exits on its own (the hung-transfer scenario):
either the 2-second poll detects no growth for more than 30 s and rejects
with the stuck error after `ffmpeg.kill('SIGKILL')`, or the absolute
120 s timer fires and rejects with the timeout error (also a SIGKILL). -/
inductive HlsOutcome where
  | stuck (t : Nat)
  | timedOut
deriving DecidableEq, Repr

/-- The polling loop of `downloadHlsWithFfmpeg` (src/ffmpeg.ts lines
63-93): tick `k` runs at `t = 2000 * (k + 1)` ms; `sizes k` is the output
file's size at tick `k` (`none` while `fs.existsSync` is false, in which
case neither the progress update nor the staleness check runs).  Growth
updates `lastFileSize`/`lastProgressTime`; otherwise staleness
(`now - lastProgressTime > 30000`) rejects as stuck.  The absolute timer
preempts any tick past 120000 ms; the fuel argument only bounds the
recursion and is chosen large enough (61) that the timer always fires
first. -/
def hlsPollLoop (sizes : Nat → Option Nat) :
    Nat → Nat → Nat → Nat → HlsOutcome
  | 0, _, _, _ => .timedOut
  | fuel + 1, k, lastFileSize, lastProgressTime =>
    let t := 2000 * (k + 1)
    if 120000 < t then .timedOut
    else
      match sizes k with
      | none => hlsPollLoop sizes fuel (k + 1) lastFileSize lastProgressTime
      | some currentFileSize =>
        if lastFileSize < currentFileSize then
          hlsPollLoop sizes fuel (k + 1) currentFileSize t
        else if 30000 < t - lastProgressTime then .stuck t
        else hlsPollLoop sizes fuel (k + 1) lastFileSize lastProgressTime

/-- The whole monitored run: ticks from `k = 0`, initial
`lastFileSize = 0` and `lastProgressTime = Date.now()` (time zero). -/
def runHlsMonitor (sizes : Nat → Option Nat) : HlsOutcome :=
  hlsPollLoop sizes 61 0 0 0

end XDL

namespace XDL

/-! ### Specification-side conditions and concrete fixtures -/

/-- The path segments of the parsed URL, as `parseTweetUrl` computes them
(`urlObj.pathname.split('/')`). -/
def tweetPathParts (url : Str) : List Str :=
  splitOnChar '/' (parseUrl url).pathname

/-- The success condition of claim C10 as stated: the URL matches the
accepted post-URL shape, and the path segment immediately after the first
`status` segment is non-empty and entirely numeric. -/
def c10ClaimCond (url : Str) : Bool :=
  isValidTwitterUrl url &&
  (match firstIdx? ("status".data) (tweetPathParts url) with
   | some i =>
     match (tweetPathParts url)[i + 1]? with
     | some id => allDigits id
     | none => false
   | none => false)

/-- The amended success condition for C10: as in the claim, but the
`status` path segment is matched case-sensitively, and the segment
immediately before the first `status` segment must also exist and be
non-empty (it becomes the author). -/
def c10AmendedCond (url : Str) : Bool :=
  isValidTwitterUrl url &&
  (match firstIdx? ("status".data) (tweetPathParts url) with
   | some 0 => false
   | some (j + 1) =>
     (match (tweetPathParts url)[j]? with
      | some a => !a.isEmpty
      | none => false) &&
     (match (tweetPathParts url)[j + 2]? with
      | some id => allDigits id
      | none => false)
   | none => false)

/-- Fixture: the higher-resolution progressive variant of scenario D. -/
def url720 : Str :=
  "https://video.twimg.com/ext_tw_video/111111/pu/vid/720x1280/best.mp4".data

/-- Fixture: the lower-resolution progressive variant of scenario D. -/
def url360 : Str :=
  "https://video.twimg.com/ext_tw_video/111111/pu/vid/360x640/low.mp4".data

/-- Fixture: a segmented-playlist candidate. -/
def urlPlaylist : Str :=
  "https://video.twimg.com/ext_tw_video/111111/pu/pl/playlist.m3u8".data

/-- Fixture: a plain progressive mp4 candidate. -/
def urlMp4 : Str :=
  "https://video.twimg.com/ext_tw_video/1/a.mp4".data

/-- Fixture: a transport-segment (`.ts`) candidate. -/
def urlSegTs : Str :=
  "https://video.twimg.com/hls/seg0001.ts".data

/-- Fixture: an audio-only mp4 rendition (`/aud/` path marker). -/
def urlAudioMp4 : Str :=
  "https://video.twimg.com/ext_tw_video/1/pu/aud/5000/a.mp4".data

/-- Fixture: a post URL whose shape matches case-insensitively but whose
first case-sensitive `status` segment is preceded by an empty segment. -/
def c10CexUrl : Str := "https://x.com/a/STATUS/123//status/456".data

/-- Probe fixture for the C3 counterexample: the 720×1280 variant reports
150000 bytes, anything else 500000 bytes (both above the floor). -/
def probeC3Cex : Str → Option Nat :=
  fun u => if u = url720 then some 150000 else some 500000

/-- Probe fixture for the C3 witness: the 720×1280 variant reports the
larger size. -/
def probeC3Wit : Str → Option Nat :=
  fun u => if u = url720 then some 500000 else some 150000

/-- Probe fixture for the C2 counterexample: the mp4 reports a
content-length of exactly 0; everything else is unknown. -/
def probeC2Cex : Str → Option Nat :=
  fun u => if u = urlMp4 then some 0 else none

/-- Probe fixture for the C2 witness: the mp4 reports 5000 bytes (below
the floor, nonzero). -/
def probeC2Wit : Str → Option Nat :=
  fun u => if u = urlMp4 then some 5000 else none

/-- Probe fixture for the C1 witness: the mp4 reports 300000 bytes (above
the floor). -/
def probeC1Wit : Str → Option Nat :=
  fun u => if u = urlMp4 then some 300000 else none

/-- Probe fixture reporting every content-length as unknown. -/
def probeUnknown : Str → Option Nat := fun _ => none

end XDL

namespace XDL

/-! ### Supporting lemmas -/


theorem insertByScore_ne_nil (c : ExtractCandidate) (l : List ExtractCandidate) :
    insertByScore c l ≠ [] := by
  cases l with
  | nil => simp [insertByScore]
  | cons b t =>
    simp only [insertByScore]
    split <;> simp

theorem sortByScoreDesc_eq_nil_iff (l : List ExtractCandidate) :
    sortByScoreDesc l = [] ↔ l = [] := by
  cases l with
  | nil => simp [sortByScoreDesc]
  | cons c t =>
    simp only [sortByScoreDesc]
    constructor
    · intro h
      exact absurd h (insertByScore_ne_nil c _)
    · intro h
      exact absurd h (by simp)

theorem mem_insertByScore {a c : ExtractCandidate} {l : List ExtractCandidate} :
    a ∈ insertByScore c l ↔ a = c ∨ a ∈ l := by
  induction l with
  | nil => simp [insertByScore]
  | cons b t ih =>
    simp only [insertByScore]
    split
    · simp [List.mem_cons]
    · simp only [List.mem_cons, ih]
      tauto

theorem mem_sortByScoreDesc {a : ExtractCandidate} {l : List ExtractCandidate} :
    a ∈ sortByScoreDesc l ↔ a ∈ l := by
  induction l with
  | nil => simp [sortByScoreDesc]
  | cons c t ih =>
    simp only [sortByScoreDesc, mem_insertByScore, ih, List.mem_cons]

theorem insertByBoost_ne_nil (c : ExtractCandidate) (l : List ExtractCandidate) :
    insertByBoost c l ≠ [] := by
  cases l with
  | nil => simp [insertByBoost]
  | cons b t =>
    simp only [insertByBoost]
    split <;> simp

theorem sortByBoostDesc_eq_nil_iff (l : List ExtractCandidate) :
    sortByBoostDesc l = [] ↔ l = [] := by
  cases l with
  | nil => simp [sortByBoostDesc]
  | cons c t =>
    simp only [sortByBoostDesc]
    constructor
    · intro h
      exact absurd h (insertByBoost_ne_nil c _)
    · intro h
      exact absurd h (by simp)

theorem mem_insertByBoost {a c : ExtractCandidate} {l : List ExtractCandidate} :
    a ∈ insertByBoost c l ↔ a = c ∨ a ∈ l := by
  induction l with
  | nil => simp [insertByBoost]
  | cons b t ih =>
    simp only [insertByBoost]
    split
    · simp [List.mem_cons]
    · simp only [List.mem_cons, ih]
      tauto

theorem mem_sortByBoostDesc {a : ExtractCandidate} {l : List ExtractCandidate} :
    a ∈ sortByBoostDesc l ↔ a ∈ l := by
  induction l with
  | nil => simp [sortByBoostDesc]
  | cons c t ih =>
    simp only [sortByBoostDesc, mem_insertByBoost, ih, List.mem_cons]

theorem pickLoop_mem (probe : Str → Option Nat) (l : List ExtractCandidate)
    (best : ExtractCandidate) (bs : Nat) :
    pickLoop probe l best bs ∈ best :: l := by
  induction l generalizing best bs with
  | nil => simp [pickLoop]
  | cons c t ih =>
    simp only [pickLoop]
    have hbest : pickLoop probe t best bs ∈ best :: c :: t := by
      have := ih best bs
      simp only [List.mem_cons] at this ⊢
      tauto
    have hc : ∀ sz, pickLoop probe t c sz ∈ best :: c :: t := by
      intro sz
      have := ih c sz
      simp only [List.mem_cons] at this ⊢
      tauto
    cases probe c.url with
    | none => exact hbest
    | some size =>
      dsimp only
      by_cases h0 : size = 0
      · rw [if_pos h0]; exact hbest
      · rw [if_neg h0]
        by_cases h1 : size < 102400
        · rw [if_pos h1]; exact hbest
        · rw [if_neg h1]
          by_cases h2 : bs < size
          · rw [if_pos h2]; exact hc size
          · rw [if_neg h2]; exact hbest

theorem pickBest_mem {probe : Str → Option Nat} {cands : List ExtractCandidate}
    {b : ExtractCandidate}
    (h : pickBestProgressiveCandidate probe cands = some b) : b ∈ cands := by
  unfold pickBestProgressiveCandidate at h
  cases hw : sortByBoostDesc (sortByScoreDesc cands) with
  | nil => rw [hw] at h; simp at h
  | cons x xs =>
    rw [hw] at h
    simp only [Option.some.injEq] at h
    have hb : b ∈ x :: (x :: xs).take 6 := by
      rw [← h]
      exact pickLoop_mem probe ((x :: xs).take 6) x 0
    have hmem : b ∈ x :: xs := by
      rcases List.mem_cons.mp hb with h1 | h2
      · rw [h1]; simp
      · exact List.take_subset 6 (x :: xs) h2
    rw [← hw] at hmem
    exact mem_sortByScoreDesc.mp (mem_sortByBoostDesc.mp hmem)

theorem pickBest_eq_none_iff (probe : Str → Option Nat)
    (cands : List ExtractCandidate) :
    pickBestProgressiveCandidate probe cands = none ↔ cands = [] := by
  unfold pickBestProgressiveCandidate
  cases hw : sortByBoostDesc (sortByScoreDesc cands) with
  | nil =>
    have h1 := (sortByBoostDesc_eq_nil_iff _).mp hw
    have h2 := (sortByScoreDesc_eq_nil_iff _).mp h1
    simp [h2]
  | cons x xs =>
    have hne : cands ≠ [] := by
      intro hc
      rw [hc] at hw
      simp [sortByScoreDesc, sortByBoostDesc] at hw
    simp [hne]


theorem insertByScore_head_max {c : ExtractCandidate}
    {s : List ExtractCandidate} {b : ExtractCandidate}
    (h : (insertByScore c s).head? = some b) :
    c.score ≤ b.score ∧ (∀ y, s.head? = some y → y.score ≤ b.score) := by
  cases s with
  | nil =>
    simp [insertByScore] at h
    subst h
    simp
  | cons y t =>
    simp only [insertByScore] at h
    split at h
    · simp only [List.head?_cons, Option.some.injEq] at h
      subst h
      refine ⟨le_refl _, ?_⟩
      intro z hz
      simp only [List.head?_cons, Option.some.injEq] at hz
      subst hz
      omega
    · simp only [List.head?_cons, Option.some.injEq] at h
      subst h
      refine ⟨by omega, ?_⟩
      intro z hz
      simp only [List.head?_cons, Option.some.injEq] at hz
      subst hz
      exact le_refl _

theorem sortByScoreDesc_head_max {l : List ExtractCandidate}
    {b : ExtractCandidate} (h : (sortByScoreDesc l).head? = some b) :
    ∀ c ∈ l, c.score ≤ b.score := by
  induction l generalizing b with
  | nil => simp [sortByScoreDesc] at h
  | cons x t ih =>
    simp only [sortByScoreDesc] at h
    have hx := insertByScore_head_max h
    intro c hcmem
    rcases List.mem_cons.mp hcmem with h1 | h2
    · subst h1; exact hx.1
    · cases hs : (sortByScoreDesc t).head? with
      | none =>
        have : sortByScoreDesc t = [] := by
          cases hst : sortByScoreDesc t with
          | nil => rfl
          | cons a s => rw [hst] at hs; simp at hs
        have ht : t = [] := (sortByScoreDesc_eq_nil_iff t).mp this
        rw [ht] at h2
        simp at h2
      | some y =>
        have hy := ih hs c h2
        have := hx.2 y hs
        omega

theorem sortByScoreDesc_head_mem {l : List ExtractCandidate}
    {b : ExtractCandidate} (h : (sortByScoreDesc l).head? = some b) :
    b ∈ l := by
  have : b ∈ sortByScoreDesc l := by
    cases hs : sortByScoreDesc l with
    | nil => rw [hs] at h; simp at h
    | cons x xs =>
      rw [hs] at h
      simp only [List.head?_cons, Option.some.injEq] at h
      subst h
      simp
  exact mem_sortByScoreDesc.mp this

theorem progressiveFilter_not_m3u8 {c : ExtractCandidate}
    (h : progressiveFilter c = true) : c.format ≠ "m3u8".data := by
  intro hf
  simp only [progressiveFilter, hf] at h
  split at h
  · exact Bool.false_ne_true h
  · split at h
    · exact Bool.false_ne_true h
    · revert h
      split
      · rename_i hcase
        rcases hcase with h1 | h1 <;> simp at h1
      · intro h
        exact Bool.false_ne_true h

theorem select_of_pick_keep {probe : Str → Option Nat} {allUrls : List Str}
    {best : ExtractCandidate}
    (hpick : pickBestProgressiveCandidate probe (progressivePool allUrls) =
      some best)
    (hkeep : ∀ s, probe best.url = some s → s = 0 ∨ 102400 ≤ s) :
    selectBestVideoUrl probe allUrls =
      some ⟨best.url, best.format, extractBitrate best.url,
            best.width, best.height⟩ := by
  unfold selectBestVideoUrl
  rw [hpick]
  dsimp only
  cases hbm : bestPlaylist allUrls with
  | none => cases hp : probe best.url <;> rfl
  | some bm =>
    cases hp : probe best.url with
    | none => rfl
    | some s =>
      try dsimp only
      have hor := hkeep s hp
      rw [if_neg ?_]
      rintro ⟨h1, h2⟩
      omega

theorem select_of_pick_substitute {probe : Str → Option Nat}
    {allUrls : List Str} {best bm : ExtractCandidate} {s : Nat}
    (hpick : pickBestProgressiveCandidate probe (progressivePool allUrls) =
      some best)
    (hbm : bestPlaylist allUrls = some bm)
    (hp : probe best.url = some s) (h0 : s ≠ 0) (hfl : s < 102400) :
    selectBestVideoUrl probe allUrls =
      some ⟨bm.url, "m3u8".data, none, none, none⟩ := by
  unfold selectBestVideoUrl
  rw [hpick]
  try dsimp only
  rw [hbm]
  try dsimp only
  rw [hp]
  try dsimp only
  rw [if_pos ⟨h0, hfl⟩]


theorem select_fallback {probe : Str → Option Nat} {allUrls : List Str}
    (hprog : progressivePool allUrls = [])
    (hpl : playlistPool allUrls = []) :
    selectBestVideoUrl probe allUrls =
      match (mp4Pool allUrls).head? with
      | some a => some ⟨a.url, a.format, none, none, none⟩
      | none => none := by
  unfold selectBestVideoUrl
  rw [(pickBest_eq_none_iff probe (progressivePool allUrls)).mpr hprog]
  have hbp : bestPlaylist allUrls = none := by
    unfold bestPlaylist
    rw [hpl]
    rfl
  rw [hbp]
  try rfl

theorem hlsPollLoop_stuck_const (sizes : Nat → Option Nat) (s : Nat) :
    ∀ fuel k ls lt m, (∀ j, k ≤ j → sizes j = some s) → s ≤ ls →
      lt = 2000 * m →
      2000 * (k + 1) ≤ lt + 32000 → lt + 32000 ≤ 120000 →
      lt + 32000 ≤ 2000 * (k + fuel) →
      hlsPollLoop sizes fuel k ls lt = .stuck (lt + 32000) := by
  intro fuel
  induction fuel with
  | zero =>
    intro k ls lt m _ _ _ h1 _ h2
    omega
  | succ fuel ih =>
    intro k ls lt m hs hls hm h1 h2 h3
    rw [hlsPollLoop]
    rw [if_neg (by omega)]
    rw [hs k (le_refl k)]
    dsimp only
    rw [if_neg (by omega)]
    by_cases hstale : 30000 < 2000 * (k + 1) - lt
    · rw [if_pos hstale]
      have : 2000 * (k + 1) = lt + 32000 := by omega
      rw [this]
    · rw [if_neg hstale]
      exact ih (k + 1) ls lt m (fun j hj => hs j (by omega)) hls hm
        (by omega) h2 (by omega)

theorem hlsPollLoop_reaches_stall (sizes : Nat → Option Nat) (s k0 : Nat)
    (hs : ∀ j, k0 ≤ j → sizes j = some s)
    (hbound : 2000 * (k0 + 1) + 32000 ≤ 120000) :
    ∀ fuel k ls lt m, k ≤ k0 → lt = 2000 * m → lt ≤ 2000 * k →
      2000 * (k0 + 1) + 32000 ≤ 2000 * (k + fuel) →
      ∃ t, hlsPollLoop sizes fuel k ls lt = .stuck t ∧ t ≤ 120000 := by
  intro fuel
  induction fuel with
  | zero =>
    intro k ls lt m hk _ _ hf
    omega
  | succ fuel ih =>
    intro k ls lt m hk hm hlt hf
    rw [hlsPollLoop]
    rw [if_neg (by omega)]
    cases hsz : sizes k with
    | none =>
      have hklt : k < k0 := by
        rcases Nat.lt_or_ge k k0 with h | h
        · exact h
        · have : k = k0 := by omega
          rw [this, hs k0 (le_refl k0)] at hsz
          exact absurd hsz (by simp)
      exact ih (k + 1) ls lt m (by omega) hm (by omega) (by omega)
    | some sz =>
      dsimp only
      by_cases hgrow : ls < sz
      · rw [if_pos hgrow]
        rcases Nat.lt_or_ge k k0 with hklt | hkge
        · exact ih (k + 1) sz (2000 * (k + 1)) (k + 1) (by omega) rfl
            (by omega) (by omega)
        · have hkk : k = k0 := by omega
          have hszs : sz = s := by
            have := hs k (by omega)
            rw [this] at hsz
            exact (Option.some.injEq _ _).mp hsz.symm
          refine ⟨2000 * (k + 1) + 32000, ?_, by omega⟩
          rw [hlsPollLoop_stuck_const sizes s fuel (k + 1) sz
            (2000 * (k + 1)) (k + 1) (fun j hj => hs j (by omega))
            (by omega) rfl (by omega) (by omega) (by omega)]
      · rw [if_neg hgrow]
        by_cases hstale : 30000 < 2000 * (k + 1) - lt
        · rw [if_pos hstale]
          exact ⟨2000 * (k + 1), rfl, by omega⟩
        · rw [if_neg hstale]
          rcases Nat.lt_or_ge k k0 with hklt | hkge
          · exact ih (k + 1) ls lt m (by omega) hm (by omega) (by omega)
          · have hkk : k = k0 := by omega
            have hszs : sz = s := by
              have := hs k (by omega)
              rw [this] at hsz
              exact (Option.some.injEq _ _).mp hsz.symm
            refine ⟨lt + 32000, ?_, by omega⟩
            exact hlsPollLoop_stuck_const sizes s fuel (k + 1) ls lt m
              (fun j hj => hs j (by omega)) (by omega) hm (by omega)
              (by omega) (by omega)

theorem jsGet?_natCast (l : List Str) (n : Nat) :
    jsGet? l (n : Int) = l[n]? := by
  unfold jsGet?
  rw [if_neg (by omega)]
  simp

theorem allDigits_not_isEmpty {id : Str} (h : allDigits id = true) :
    id.isEmpty = false := by
  unfold allDigits at h
  rcases Bool.and_eq_true _ _ |>.mp h with ⟨h1, _⟩
  simp at h1
  simp [h1]

theorem tweetFromParts_eq_some_iff (u : ParsedUrl) (ti : TweetInfo) :
    tweetFromParts u = some ti ↔
      ∃ j a id,
        firstIdx? ("status".data) (splitOnChar '/' u.pathname) = some (j + 1) ∧
        (splitOnChar '/' u.pathname)[j]? = some a ∧
        (splitOnChar '/' u.pathname)[j + 2]? = some id ∧
        a.isEmpty = false ∧ allDigits id = true ∧
        ti = ⟨id, a, u.origin ++ u.pathname⟩ := by
  unfold tweetFromParts jsIndexOf
  have hx : ("status".data : Str) = ['s', 't', 'a', 't', 'u', 's'] := rfl
  simp only [hx]
  cases hfi : firstIdx? ['s', 't', 'a', 't', 'u', 's'] (splitOnChar '/' u.pathname) with
  | none =>
    dsimp only
    rw [if_pos (by decide)]
    simp
  | some i =>
    dsimp only
    cases i with
    | zero =>
      rw [if_pos (by decide)]
      simp
    | succ j =>
      rw [if_neg (by omega)]
      have h1 : ((j + 1 : Nat) : Int) - 1 = ((j : Nat) : Int) := by omega
      have h2 : ((j + 1 : Nat) : Int) + 1 = ((j + 2 : Nat) : Int) := by omega
      rw [h1, h2, jsGet?_natCast, jsGet?_natCast]
      cases ha : (splitOnChar '/' u.pathname)[j]? with
      | none =>
        dsimp only
        constructor
        · intro hcontra
          exact absurd hcontra (by simp)
        · rintro ⟨j2, a2, id2, hfi2, ha2, _⟩
          have hj : j2 = j := by
            have := (Option.some.injEq _ _).mp hfi2
            omega
          rw [hj, ha] at ha2
          exact absurd ha2 (by simp)
      | some a =>
        cases hid : (splitOnChar '/' u.pathname)[j + 2]? with
        | none =>
          dsimp only
          constructor
          · intro hcontra
            exact absurd hcontra (by simp)
          · rintro ⟨j2, a2, id2, hfi2, _, hid2, _⟩
            have hj : j2 = j := by
              have := (Option.some.injEq _ _).mp hfi2
              omega
            rw [hj, hid] at hid2
            exact absurd hid2 (by simp)
        | some id =>
          dsimp only
          by_cases hcond : (a.isEmpty || id.isEmpty || !allDigits id) = true
          · rw [if_pos hcond]
            constructor
            · intro hcontra
              exact absurd hcontra (by simp)
            · rintro ⟨j2, a2, id2, hfi2, ha2, hid2, hae2, hd2, _⟩
              have hj : j2 = j := by
                have := (Option.some.injEq _ _).mp hfi2
                omega
              rw [hj, ha] at ha2
              rw [hj, hid] at hid2
              have haa : a2 = a := ((Option.some.injEq _ _).mp ha2.symm)
              have hii : id2 = id := ((Option.some.injEq _ _).mp hid2.symm)
              rw [haa] at hae2
              rw [hii] at hd2
              have hie := allDigits_not_isEmpty hd2
              rw [hae2, hie, hd2] at hcond
              simp at hcond
          · rw [if_neg hcond]
            simp only [Bool.or_eq_true, not_or, Bool.not_eq_true] at hcond
            obtain ⟨⟨haef, hief⟩, hdf⟩ := hcond
            have hdt : allDigits id = true := by
              cases hres : allDigits id
              · rw [hres] at hdf
                simp at hdf
              · rfl
            constructor
            · intro hsome
              have hti := (Option.some.injEq _ _).mp hsome
              exact ⟨j, a, id, rfl, ha, hid, haef, hdt, hti.symm⟩
            · rintro ⟨j2, a2, id2, hfi2, ha2, hid2, _, _, hti⟩
              have hj : j2 = j := by
                have := (Option.some.injEq _ _).mp hfi2
                omega
              rw [hj, ha] at ha2
              rw [hj, hid] at hid2
              rw [hti, (Option.some.injEq _ _).mp ha2.symm,
                (Option.some.injEq _ _).mp hid2.symm]
theorem tweetFromParts_isSome_eq (u : ParsedUrl) :
    (tweetFromParts u).isSome =
      (match firstIdx? ("status".data) (splitOnChar '/' u.pathname) with
       | some 0 => false
       | some (Nat.succ j) =>
         (match (splitOnChar '/' u.pathname)[j]? with
          | some a => !a.isEmpty
          | none => false) &&
         (match (splitOnChar '/' u.pathname)[j + 2]? with
          | some id => allDigits id
          | none => false)
       | none => false) := by
  cases hopt : tweetFromParts u with
  | some ti =>
    obtain ⟨j, a, id, hfi, ha, hid, hae, hd, _⟩ :=
      (tweetFromParts_eq_some_iff u ti).mp hopt
    rw [hfi]
    dsimp only
    rw [ha, hid]
    simp [hae, hd]
  | none =>
    cases hfi : firstIdx? ("status".data) (splitOnChar '/' u.pathname) with
    | none => rfl
    | some i =>
      cases i with
      | zero => rfl
      | succ j =>
        dsimp only
        cases ha : (splitOnChar '/' u.pathname)[j]? with
        | none => simp
        | some a =>
          cases hid : (splitOnChar '/' u.pathname)[j + 2]? with
          | none => simp
          | some id =>
            dsimp only
            cases hae : a.isEmpty with
            | true => simp [hae]
            | false =>
              cases hd : allDigits id with
              | false => simp [hd]
              | true =>
                exfalso
                have hsome : tweetFromParts u =
                    some ⟨id, a, u.origin ++ u.pathname⟩ :=
                  (tweetFromParts_eq_some_iff u _).mpr
                    ⟨j, a, id, hfi, ha, hid, hae, hd, rfl⟩
                rw [hopt] at hsome
                exact absurd hsome (by simp)

end XDL

namespace XDL

/-! ### Claim theorems -/


/-- C4: `hasLoginWall(html)` returns true exactly when both independent
conditions hold — a login/signup indicator phrase occurs case-insensitively
and an exact sign-in/log-in call-to-action string occurs — and in
particular it returns false for HTML with only an indicator phrase, false
for HTML with only the call-to-action string, and true when both are
present. -/
theorem c4_hasLoginWall_conjunction :
    (∀ html : Str,
      hasLoginWall html = (hasLoginIndicator html && hasAuthRequired html)) ∧
    hasLoginWall ("Please sign up today".data) = false ∧
    hasLoginWall ("<div>Sign in</div>".data) = false ∧
    hasLoginWall ("Log in now".data) = true :=
  ⟨fun _ => rfl, by decide, by decide, by decide⟩

/-- C5 (failing input): the classifier gives transport-segment suffixes no
distinct tag — `.ts` and `.m4s` URLs are classified `"unknown"`, although
the selector's own filter tests for `"ts"`/`"m4s"`/`"m4a"` tags and the
unit tests expect them — and consequently, for the candidate set holding a
`.ts` segment and a playlist, the selector returns the transport segment
even though a playlist alternative exists. -/
theorem c5_transport_segment_selected :
    getVideoFormat urlSegTs = "unknown".data ∧
    getVideoFormat ("https://video.twimg.com/hls/seg0001.m4s".data) =
      "unknown".data ∧
    playlistPool [urlSegTs, urlPlaylist] ≠ [] ∧
    selectBestVideoUrl probeUnknown [urlSegTs, urlPlaylist] =
      some ⟨urlSegTs, "unknown".data, none, none, none⟩ := by decide

/-- C6 (failing input): `getVideoFormat` classifies by case-insensitive
substring containment anywhere in the URL over `.mp4`/`.m3u8`/`.gif` only,
not by the query/fragment-stripped path suffix: a `.webm` or `.m4s` suffix
(expected by the unit tests) yields `"unknown"`, and a `.mp4` marker inside
the query string overrides a `.m3u8` path suffix.  The claim's positive
examples do hold. -/
theorem c6_format_by_substring_not_suffix :
    getVideoFormat ("https://example.com/video.webm".data) = "unknown".data ∧
    getVideoFormat ("https://video.twimg.com/segment.m4s".data) =
      "unknown".data ∧
    getVideoFormat ("https://video.twimg.com/vid.m3u8?f=.mp4".data) =
      "mp4".data ∧
    getVideoFormat ("https://video.twimg.com/tweet_video.MP4?tag=1".data) =
      "mp4".data ∧
    getVideoFormat ("https://video.twimg.com/video.m3u8#t=5".data) =
      "m3u8".data := by decide

/-- C8: a URL failing the shape test terminates `extract` with the
invalid-URL classification before any browser is opened, and a URL passing
the shape test whose fields fail to parse terminates with the distinct
parse-error classification, likewise with no browser opened. -/
theorem c8_validation_failfast :
    (∀ url : Str, isValidTwitterUrl url = false →
      extractPrelude url = .earlyReturn .INVALID_URL ∧
      browserOpened (extractPrelude url) = false) ∧
    (∀ url : Str, isValidTwitterUrl url = true → parseTweetUrl url = none →
      extractPrelude url = .earlyReturn .PARSE_ERROR ∧
      browserOpened (extractPrelude url) = false) := by
  constructor
  · intro url h
    have he : extractPrelude url = .earlyReturn .INVALID_URL := by
      unfold extractPrelude
      rw [h]
      rfl
    exact ⟨he, by rw [he]; rfl⟩
  · intro url hv hp
    have he : extractPrelude url = .earlyReturn .PARSE_ERROR := by
      unfold extractPrelude
      rw [hv, hp]
      rfl
    exact ⟨he, by rw [he]; rfl⟩

theorem c8_validation_failfast_witness :
    (isValidTwitterUrl ("https://google.com".data) = false ∧
     (extractPrelude ("https://google.com".data) =
        .earlyReturn .INVALID_URL ∧
      browserOpened (extractPrelude ("https://google.com".data)) = false)) ∧
    (isValidTwitterUrl ("https://x.com/a/status/123abc".data) = true ∧
     parseTweetUrl ("https://x.com/a/status/123abc".data) = none ∧
     (extractPrelude ("https://x.com/a/status/123abc".data) =
        .earlyReturn .PARSE_ERROR ∧
      browserOpened (extractPrelude ("https://x.com/a/status/123abc".data)) =
        false)) :=
  ⟨⟨by decide, c8_validation_failfast.1 _ (by decide)⟩,
   ⟨by decide, by decide, c8_validation_failfast.2 _ (by decide) (by decide)⟩⟩

/-- C9: when the output file's size stops growing from some poll tick on
and the 30-second no-progress window completes before the 120-second
absolute timer, the monitor rejects with the stuck classification (after a
SIGKILL), not by completing and not by the absolute timeout. -/
theorem c9_no_progress_kills :
    ∀ (sizes : Nat → Option Nat) (s k0 : Nat),
      (∀ k, k0 ≤ k → sizes k = some s) →
      2000 * (k0 + 1) + 32000 ≤ 120000 →
      ∃ t, runHlsMonitor sizes = HlsOutcome.stuck t ∧ t ≤ 120000 := by
  intro sizes s k0 hs hb
  unfold runHlsMonitor
  exact hlsPollLoop_reaches_stall sizes s k0 hs hb 61 0 0 0 0
    (by omega) (by omega) (by omega) (by omega)

theorem c9_no_progress_kills_witness :
    ∃ t, runHlsMonitor (fun _ => some 5000) = HlsOutcome.stuck t ∧
      t ≤ 120000 :=
  c9_no_progress_kills (fun _ => some 5000) 5000 0 (fun _ _ => rfl) (by omega)

theorem c10_counterexample :
    isValidTwitterUrl c10CexUrl = true ∧ c10ClaimCond c10CexUrl = true ∧
    parseTweetUrl c10CexUrl = none := by decide

/-- C10 (amended): `parseTweetUrl` returns a non-null `TweetInfo` exactly
when the URL matches the accepted shape and the pathname has a
case-sensitive `status` segment whose following segment is non-empty and
entirely numeric and whose preceding segment exists and is non-empty; when
non-null, the id and author are those neighbouring segments and the url is
the origin plus the query/fragment-stripped pathname. -/
theorem c10_parse_characterization :
    (∀ url : Str, (parseTweetUrl url).isSome = c10AmendedCond url) ∧
    (∀ (url : Str) (ti : TweetInfo), parseTweetUrl url = some ti →
      ∃ j, firstIdx? ("status".data) (tweetPathParts url) = some (j + 1) ∧
        (tweetPathParts url)[j]? = some ti.author ∧
        (tweetPathParts url)[j + 2]? = some ti.id ∧
        ti.author.isEmpty = false ∧ allDigits ti.id = true ∧
        ti.url = (parseUrl url).origin ++ (parseUrl url).pathname) := by
  constructor
  · intro url
    unfold parseTweetUrl c10AmendedCond tweetPathParts
    cases hv : isValidTwitterUrl url with
    | false => simp
    | true =>
      simp only [Bool.not_true, Bool.true_and]
      rw [if_neg Bool.false_ne_true, tweetFromParts_isSome_eq]
      try rfl
  · intro url ti h
    unfold parseTweetUrl at h
    cases hv : isValidTwitterUrl url with
    | false =>
      rw [hv] at h
      simp at h
    | true =>
      rw [hv] at h
      simp only [Bool.not_true] at h
      rw [if_neg Bool.false_ne_true] at h
      obtain ⟨j, a, id, hfi, ha, hid, hae, hd, hti⟩ :=
        (tweetFromParts_eq_some_iff _ _).mp h
      subst hti
      unfold tweetPathParts
      exact ⟨j, hfi, ha, hid, hae, hd, rfl⟩

theorem c10_parse_characterization_witness :
    ∃ j, firstIdx? ("status".data)
        (tweetPathParts ("https://x.com/user/status/123456".data)) =
        some (j + 1) ∧
      (tweetPathParts ("https://x.com/user/status/123456".data))[j]? =
        some ("user".data) ∧
      (tweetPathParts ("https://x.com/user/status/123456".data))[j + 2]? =
        some ("123456".data) ∧
      ("user".data : Str).isEmpty = false ∧
      allDigits ("123456".data) = true ∧
      ("https://x.com/user/status/123456".data : Str) =
        (parseUrl ("https://x.com/user/status/123456".data)).origin ++
        (parseUrl ("https://x.com/user/status/123456".data)).pathname :=
  c10_parse_characterization.2 ("https://x.com/user/status/123456".data)
    ⟨"123456".data, "user".data, "https://x.com/user/status/123456".data⟩
    (by decide)

/-- C1: if a non-audio progressive-container candidate exists and the
progressive candidate chosen by ranking probes at or above the 100 KiB
floor, the selector returns that progressive candidate (never a playlist);
in particular, with exactly one playlist candidate and one progressive
candidate probing at or above the floor, the progressive one is selected. -/
theorem c1_progressive_over_playlist :
    (∀ (probe : Str → Option Nat) (allUrls : List Str)
        (c best : ExtractCandidate) (s : Nat),
      c ∈ parsedCandidates allUrls → c.audioOnly = false →
      (c.format = "mp4".data ∨ c.format = "webm".data) →
      pickBestProgressiveCandidate probe (progressivePool allUrls) =
        some best →
      probe best.url = some s → 102400 ≤ s →
      selectBestVideoUrl probe allUrls =
        some ⟨best.url, best.format, extractBitrate best.url,
              best.width, best.height⟩ ∧
      best.format ≠ "m3u8".data) ∧
    (∀ (probe : Str → Option Nat) (cp cm : ExtractCandidate)
        (allUrls : List Str) (s : Nat),
      progressivePool allUrls = [cp] → playlistPool allUrls = [cm] →
      probe cp.url = some s → 102400 ≤ s →
      selectBestVideoUrl probe allUrls =
        some ⟨cp.url, cp.format, extractBitrate cp.url,
              cp.width, cp.height⟩ ∧
      cp.format ≠ "m3u8".data) := by
  have hfmt : ∀ {allUrls : List Str} {b : ExtractCandidate},
      b ∈ progressivePool allUrls → b.format ≠ "m3u8".data := by
    intro allUrls b hb
    have := (List.mem_filter.mp hb).2
    exact progressiveFilter_not_m3u8 this
  constructor
  · intro probe allUrls c best s _ _ _ hpick hp hs
    refine ⟨?_, hfmt (pickBest_mem hpick)⟩
    apply select_of_pick_keep hpick
    intro s2 hs2
    rw [hp] at hs2
    have : s2 = s := by
      have := (Option.some.injEq _ _).mp hs2.symm
      omega
    omega
  · intro probe cp cm allUrls s hpool hpl hp hs
    have hpick : pickBestProgressiveCandidate probe (progressivePool allUrls) =
        some cp := by
      rw [hpool]
      unfold pickBestProgressiveCandidate
      have hsort : sortByBoostDesc (sortByScoreDesc [cp]) = [cp] := by
        simp [sortByScoreDesc, insertByScore, sortByBoostDesc, insertByBoost]
      rw [hsort]
      dsimp only
      simp only [List.take]
      unfold pickLoop
      rw [hp]
      dsimp only
      rw [if_neg (by omega), if_neg (by omega), if_pos (by omega)]
      rfl
    have hmem : cp ∈ progressivePool allUrls := by
      rw [hpool]
      simp
    refine ⟨?_, hfmt hmem⟩
    apply select_of_pick_keep hpick
    intro s2 hs2
    rw [hp] at hs2
    have : s2 = s := by
      have := (Option.some.injEq _ _).mp hs2.symm
      omega
    omega

theorem c1_progressive_over_playlist_witness :
    selectBestVideoUrl probeC1Wit [urlMp4, urlPlaylist] =
      some ⟨(toCandidate urlMp4).url, (toCandidate urlMp4).format,
            extractBitrate (toCandidate urlMp4).url,
            (toCandidate urlMp4).width, (toCandidate urlMp4).height⟩ ∧
    (toCandidate urlMp4).format ≠ "m3u8".data :=
  c1_progressive_over_playlist.2 probeC1Wit (toCandidate urlMp4)
    (toCandidate urlPlaylist) [urlMp4, urlPlaylist] 300000
    (by decide) (by decide) (by decide) (by decide)

theorem c2_counterexample :
    probeC2Cex urlMp4 = some 0 ∧ (0 : Nat) < 102400 ∧
    playlistPool [urlMp4, urlPlaylist] ≠ [] ∧
    selectBestVideoUrl probeC2Cex [urlMp4, urlPlaylist] =
      some ⟨urlMp4, "mp4".data, none, none, none⟩ := by decide

/-- C2 (amended): if the progressive candidate chosen by ranking probes at
a known, nonzero content-length strictly below the 100 KiB floor and a
playlist candidate exists, the selector discards the progressive choice and
returns the highest-scored playlist; an unknown content-length (and, per
the counterexample, a zero one) does not trigger the substitution. -/
theorem c2_small_progressive_substituted :
    (∀ (probe : Str → Option Nat) (allUrls : List Str)
        (best bm : ExtractCandidate) (s : Nat),
      pickBestProgressiveCandidate probe (progressivePool allUrls) =
        some best →
      bestPlaylist allUrls = some bm →
      probe best.url = some s → 0 < s → s < 102400 →
      selectBestVideoUrl probe allUrls =
        some ⟨bm.url, "m3u8".data, none, none, none⟩ ∧
      bm ∈ playlistPool allUrls ∧
      ∀ c ∈ playlistPool allUrls, c.score ≤ bm.score) ∧
    (∀ (probe : Str → Option Nat) (allUrls : List Str)
        (best : ExtractCandidate),
      pickBestProgressiveCandidate probe (progressivePool allUrls) =
        some best →
      probe best.url = none →
      selectBestVideoUrl probe allUrls =
        some ⟨best.url, best.format, extractBitrate best.url,
              best.width, best.height⟩) := by
  constructor
  · intro probe allUrls best bm s hpick hbm hp h0 hfl
    have hhead : (sortByScoreDesc (playlistPool allUrls)).head? = some bm := hbm
    refine ⟨select_of_pick_substitute hpick hbm hp (by omega) hfl,
      sortByScoreDesc_head_mem hhead, sortByScoreDesc_head_max hhead⟩
  · intro probe allUrls best hpick hp
    apply select_of_pick_keep hpick
    intro s2 hs2
    rw [hp] at hs2
    exact absurd hs2 (by simp)

theorem c2_small_progressive_substituted_witness :
    selectBestVideoUrl probeC2Wit [urlMp4, urlPlaylist] =
      some ⟨(toCandidate urlPlaylist).url, "m3u8".data, none, none, none⟩ :=
  (c2_small_progressive_substituted.1 probeC2Wit [urlMp4, urlPlaylist]
    (toCandidate urlMp4) (toCandidate urlPlaylist) 5000
    (by decide) (by decide) (by decide) (by decide) (by decide)).1

theorem c3_counterexample :
    probeC3Cex url720 = some 150000 ∧ probeC3Cex url360 = some 500000 ∧
    (102400 : Nat) ≤ 150000 ∧
    (toCandidate url360).score < (toCandidate url720).score ∧
    selectBestVideoUrl probeC3Cex [url720, url360] =
      some ⟨url360, "mp4".data, some 230400, some 360, some 640⟩ := by decide

/-- C3 (amended): with both scenario-D variants probing above the floor,
the 720×1280 variant is selected whenever its probed content-length is at
least that of the 360×640 variant; the probing loop keeps the largest
probed size above the floor, overriding the area ranking otherwise. -/
theorem c3_highres_selected :
    ∀ (probe : Str → Option Nat) (s1 s2 : Nat),
      probe url720 = some s1 → probe url360 = some s2 →
      102400 ≤ s1 → 102400 ≤ s2 → s2 ≤ s1 →
      selectBestVideoUrl probe [url720, url360] =
        some ⟨url720, "mp4".data, some 921600, some 720, some 1280⟩ := by
  intro probe s1 s2 hp1 hp2 hs1 hs2 hle
  have hc7 : toCandidate url720 =
      ⟨url720, "mp4".data, some 720, some 1280, 1000921600, false⟩ := by
    decide
  have hc3 : toCandidate url360 =
      ⟨url360, "mp4".data, some 360, some 640, 1000230400, false⟩ := by
    decide
  have hpool : progressivePool [url720, url360] =
      [toCandidate url720, toCandidate url360] := by decide
  have hsort : sortByBoostDesc (sortByScoreDesc
      [toCandidate url720, toCandidate url360]) =
      [toCandidate url720, toCandidate url360] := by decide
  have hpick : pickBestProgressiveCandidate probe
      (progressivePool [url720, url360]) = some (toCandidate url720) := by
    rw [hpool]
    unfold pickBestProgressiveCandidate
    rw [hsort]
    dsimp only
    simp only [List.take]
    unfold pickLoop
    rw [show (toCandidate url720).url = url720 from by decide, hp1]
    dsimp only
    rw [if_neg (by omega), if_neg (by omega), if_pos (by omega)]
    unfold pickLoop
    rw [show (toCandidate url360).url = url360 from by decide, hp2]
    dsimp only
    rw [if_neg (by omega), if_neg (by omega), if_neg (by omega)]
    rfl
  have hsel := select_of_pick_keep hpick ?_
  · rw [hsel, hc7]
    have : extractBitrate (⟨url720, "mp4".data, some 720, some 1280,
        1000921600, false⟩ : ExtractCandidate).url = some 921600 := by decide
    rw [this]
  · intro s hs
    rw [show (toCandidate url720).url = url720 from by decide, hp1] at hs
    have : s = s1 := by
      have := (Option.some.injEq _ _).mp hs.symm
      omega
    omega

theorem c3_highres_selected_witness :
    selectBestVideoUrl probeC3Wit [url720, url360] =
      some ⟨url720, "mp4".data, some 921600, some 720, some 1280⟩ :=
  c3_highres_selected probeC3Wit 500000 150000
    (by decide) (by decide) (by decide) (by decide) (by decide)

theorem c7_counterexample :
    (toCandidate urlAudioMp4).audioOnly = true ∧
    selectBestVideoUrl probeUnknown [urlAudioMp4] =
      some ⟨urlAudioMp4, "mp4".data, none, none, none⟩ := by decide

/-- C7 (amended): when no progressive-video candidate and no playlist
candidate survive, the last resort returns the first mp4-format candidate
— necessarily an audio-only rendition at this point — without scoring, and
returns none exactly when no mp4-format candidate remains. -/
theorem c7_degenerate_fallback :
    ∀ (probe : Str → Option Nat) (allUrls : List Str),
      progressivePool allUrls = [] → playlistPool allUrls = [] →
      ((selectBestVideoUrl probe allUrls = none ↔ mp4Pool allUrls = []) ∧
       (∀ a, (mp4Pool allUrls).head? = some a →
         selectBestVideoUrl probe allUrls =
           some ⟨a.url, a.format, none, none, none⟩) ∧
       (∀ a, (mp4Pool allUrls).head? = some a → a.audioOnly = true)) := by
  intro probe allUrls hprog hpl
  have hsel := @select_fallback probe allUrls hprog hpl
  refine ⟨?_, ?_, ?_⟩
  · rw [hsel]
    cases hh : (mp4Pool allUrls).head? with
    | none =>
      simp only [List.head?_eq_none_iff] at hh
      simp [hh]
    | some a =>
      have hne : mp4Pool allUrls ≠ [] := by
        intro hc
        rw [hc] at hh
        exact absurd hh (by simp)
      simp [hne]
  · intro a hh
    rw [hsel, hh]
  · intro a hh
    have hmem : a ∈ mp4Pool allUrls := List.mem_of_mem_head? hh
    have hfmt : a.format = "mp4".data := by
      have := (List.mem_filter.mp hmem).2
      simpa using this
    have hpar : a ∈ parsedCandidates allUrls := (List.mem_filter.mp hmem).1
    cases haud : a.audioOnly with
    | true => rfl
    | false =>
      exfalso
      have hpf : progressiveFilter a = true := by
        unfold progressiveFilter
        rw [haud, hfmt]
        decide
      have : a ∈ progressivePool allUrls :=
        List.mem_filter.mpr ⟨hpar, hpf⟩
      rw [hprog] at this
      exact absurd this (by simp)

theorem c7_degenerate_fallback_witness :
    selectBestVideoUrl probeUnknown [urlAudioMp4] =
      some ⟨(toCandidate urlAudioMp4).url, (toCandidate urlAudioMp4).format,
            none, none, none⟩ :=
  (c7_degenerate_fallback probeUnknown [urlAudioMp4]
    (by decide) (by decide)).2.1 (toCandidate urlAudioMp4) (by decide)

end XDL
